import Mathlib

/-!
Verification of the boot-stub core (src/src/boot/efi/stub.c): the initrd
combination engine `combine_initrd`, the loader identity export
`export_variables`, the command-line selection policy, and the boot
orchestration sequencer `efi_main`, shallowly embedded over a byte-addressed
memory model.  Machine words (UINTN) are 64-bit; overflow-sensitive
arithmetic carries explicit reductions modulo 2^64.
-/

set_option maxHeartbeats 1000000

namespace Stub

/-- Largest value representable in a UINTN (64-bit machine word). -/
def UINTN_MAX : Nat := 2 ^ 64 - 1

/-- Largest value representable in 32 bits; the address ceiling for the
combined initrd allocation. -/
def UINT32_MAX : Nat := 2 ^ 32 - 1

/-- ALIGN4 from the EFI utility header: round up to a multiple of 4 in
UINTN arithmetic, i.e. ((l + 3) &~ 3) with wrap-around modulo 2^64. -/
def ALIGN4 (n : Nat) : Nat := (n + 3) % 2 ^ 64 / 4 * 4

/-- EFI_SIZE_TO_PAGES: (size >> 12) + (size & 4095 ? 1 : 0). -/
def EFI_SIZE_TO_PAGES (n : Nat) : Nat := n / 4096 + (if n % 4096 = 0 then 0 else 1)

/-- EFI status codes relevant to the stub. -/
inductive EfiStatus where
  | success
  | outOfResources
  | notFound
  | err (code : Nat)
deriving DecidableEq

/-- An input buffer handed to `combine_initrd`: a pointer and a size. -/
structure Frag where
  addr : Nat
  size : Nat
deriving DecidableEq

/-- Size contributed by an optional fragment (absent fragments contribute
nothing and are skipped entirely by the code). -/
def fragSize : Option Frag → Nat
  | none => 0
  | some f => f.size

/-- Read `n` consecutive bytes of memory starting at address `a`. -/
def readBytes (m : Nat → Nat) (a : Nat) : Nat → List Nat
  | 0 => []
  | n + 1 => m a :: readBytes m (a + 1) n

/-- Write the byte list `bs` into memory starting at address `a`
(the semantics of memcpy/memset into a destination region). -/
def writeBytes (m : Nat → Nat) (a : Nat) : List Nat → (Nat → Nat)
  | [] => m
  | b :: bs => writeBytes (fun x => if x = a then b else m x) (a + 1) bs

/-- The bytes of an optional fragment as currently in memory. -/
def fragBytes (m : Nat → Nat) : Option Frag → List Nat
  | none => []
  | some f => readBytes m f.addr f.size

/-- One overflow-checked accumulation step of `combine_initrd`:
`if (frag) { if (n > UINTN_MAX - frag_size) return EFI_OUT_OF_RESOURCES; n += frag_size; }`. -/
def addChecked (n : Nat) : Option Frag → Option Nat
  | none => some n
  | some f => if n > UINTN_MAX - f.size then none else some (n + f.size)

/-- The size-accounting phase of `combine_initrd` (stub.c lines 37-55):
start from ALIGN4(initrd_size) and add each present fragment size with an
overflow check before the addition. -/
def combine_size (initrd_size : Nat) (cred gcred sysext : Option Frag) : Option Nat :=
  (addChecked (ALIGN4 initrd_size) cred).bind fun n1 =>
    (addChecked n1 gcred).bind fun n2 => addChecked n2 sysext

/-- The primary-initrd copy of `combine_initrd` (stub.c lines 66-79): if the
primary base address is nonzero, copy its bytes and zero-fill up to the next
4-byte boundary, advancing the write cursor; otherwise do nothing.
Returns the updated memory and the cursor. -/
def copyPrimary (m : Nat → Nat) (base initrd_base initrd_size : Nat) : (Nat → Nat) × Nat :=
  if initrd_base ≠ 0 then
    let m1 := writeBytes m base (readBytes m initrd_base initrd_size)
    let pad := ALIGN4 initrd_size - initrd_size
    (writeBytes m1 (base + initrd_size) (List.replicate pad 0), base + initrd_size + pad)
  else (m, base)

/-- Copy one optional fragment at the write cursor (stub.c lines 81-94):
present fragments are copied adjacent, absent ones are skipped. -/
def copyFrag (st : (Nat → Nat) × Nat) (f : Option Frag) : (Nat → Nat) × Nat :=
  match f with
  | none => st
  | some fr => (writeBytes st.1 st.2 (readBytes st.1 fr.addr fr.size), st.2 + fr.size)

/-- The whole copy phase of `combine_initrd`: primary, then credential,
global-credential and system-extension fragments, in the fixed order of the
source. -/
def copyPhase (m : Nat → Nat) (base initrd_base initrd_size : Nat)
    (cred gcred sysext : Option Frag) : (Nat → Nat) × Nat :=
  copyFrag (copyFrag (copyFrag (copyPrimary m base initrd_base initrd_size) cred) gcred) sysext

/-- Outcome of `combine_initrd`: success with the resulting memory, output
base and size; an EFI error; or failure of the end-of-copy assertion
(stub.c line 96). -/
inductive CombineResult where
  | ok (mem : Nat → Nat) (base : Nat) (size : Nat)
  | error (e : EfiStatus)
  | assertFail

/-- A request issued to BS->AllocatePages with AllocateMaxAddress:
the page count and the maximum acceptable address. -/
structure AllocCall where
  pages : Nat
  maxAddr : Nat
deriving DecidableEq

/-- Result of a `combine_initrd` call together with the allocation requests
it issued and the error statuses it reported via log_error_status_stall. -/
structure CombineOut where
  res : CombineResult
  allocCalls : List AllocCall
  logs : List EfiStatus

/-- combine_initrd (stub.c lines 20-102) over an allocation oracle:
overflow-checked size accounting, a single page allocation below the 32-bit
boundary, the copy phase, and the end-of-copy cursor assertion. -/
def combine_initrd (m : Nat → Nat) (initrd_base initrd_size : Nat)
    (cred gcred sysext : Option Frag)
    (alloc : Nat → Nat → Except EfiStatus Nat) : CombineOut :=
  match combine_size initrd_size cred gcred sysext with
  | none => ⟨.error .outOfResources, [], []⟩
  | some n =>
    match alloc (EFI_SIZE_TO_PAGES n) UINT32_MAX with
    | .error e => ⟨.error e, [⟨EFI_SIZE_TO_PAGES n, UINT32_MAX⟩], [e]⟩
    | .ok base =>
      let st := copyPhase m base initrd_base initrd_size cred gcred sysext
      if st.2 = base + n then ⟨.ok st.1 base n, [⟨EFI_SIZE_TO_PAGES n, UINT32_MAX⟩], []⟩
      else ⟨.assertFail, [⟨EFI_SIZE_TO_PAGES n, UINT32_MAX⟩], []⟩

/-- The five loader identity variables managed by export_variables. -/
inductive LoaderVar where
  | devicePartUUID
  | imageIdentifier
  | firmwareInfo
  | firmwareType
  | stubId
deriving DecidableEq

/-- The persistent firmware variable store restricted to the five managed
names: absent means efivar_get_raw fails for that name. -/
def Store := LoaderVar → Option (List Nat)

/-- efivar_set for one of the managed names. -/
def setVar (st : Store) (k : LoaderVar) (v : List Nat) : Store :=
  fun w => if w = k then some v else st w

/-- The platform-supplied inputs of export_variables: the disk UUID lookup
result, whether the loaded image has a FilePath, the DevicePathToStr result,
and the three formatted identity strings. -/
structure Platform where
  diskUUID : Option (List Nat)
  filePath : Bool
  pathStr : Option (List Nat)
  fwInfo : List Nat
  fwType : List Nat
  stubStr : List Nat

/-- export_variables (stub.c lines 104-148): for each of the five names,
check-then-set — a value is computed and stored only when the get reports
the variable absent, and the per-variable lookups may themselves fail, in
which case nothing is stored for that name. -/
def export_variables (pl : Platform) (st : Store) : Store :=
  let st1 := if (st .devicePartUUID).isNone then
      match pl.diskUUID with
      | some u => setVar st .devicePartUUID u
      | none => st
    else st
  let st2 := if (st1 .imageIdentifier).isNone ∧ pl.filePath = true then
      match pl.pathStr with
      | some s => setVar st1 .imageIdentifier s
      | none => st1
    else st1
  let st3 := if (st2 .firmwareInfo).isNone then setVar st2 .firmwareInfo pl.fwInfo else st2
  let st4 := if (st3 .firmwareType).isNone then setVar st3 .firmwareType pl.fwType else st3
  if (st4 .stubId).isNone then setVar st4 .stubId pl.stubStr else st4

/-- The value export_variables would store for a given variable when it is
absent (none when the required lookup fails and nothing is stored). -/
def exportValue (pl : Platform) : LoaderVar → Option (List Nat)
  | .devicePartUUID => pl.diskUUID
  | .imageIdentifier => if pl.filePath then pl.pathStr else none
  | .firmwareInfo => some pl.fwInfo
  | .firmwareType => some pl.fwType
  | .stubId => some pl.stubStr

/-- The selected command line: narrow bytes, length, and whether the
caller-supplied override was accepted. -/
structure CmdSel where
  bytes : List Nat
  len : Nat
  usedOverride : Bool
deriving DecidableEq

/-- Command-line selection (stub.c lines 208-227).  `embedded`/`embSize`
are the .cmdline section bytes and size; `loadOptions` is the
caller-supplied wide string as 16-bit code units and `loadOptionsSize` its
size in bytes.  The override is accepted iff (secure boot is off or there
is no embedded command line) and the options are non-empty and their first
16-bit unit exceeds 0x1F; acceptance truncates each unit to its low byte. -/
def select_cmdline (secureBoot : Bool) (embedded : List Nat) (embSize : Nat)
    (loadOptions : List Nat) (loadOptionsSize : Nat) : CmdSel :=
  let cmdline := if embSize > 0 then embedded else []
  let cmdline_len := if embSize > 0 then embSize else 0
  if (secureBoot = false ∨ cmdline_len = 0) ∧ 0 < loadOptionsSize ∧
      0x1F < loadOptions.getD 0 0 then
    { bytes := (List.range (loadOptionsSize / 2)).map fun i => loadOptions.getD i 0 % 256,
      len := loadOptionsSize / 2,
      usedOverride := true }
  else
    { bytes := cmdline, len := cmdline_len, usedOverride := false }

/-- The five named PE sections the stub looks up. -/
inductive PESection where
  | cmdline
  | linux
  | initrd
  | splash
  | dtb
deriving DecidableEq

/-- The arguments handed to linux_exec (stub.c lines 300-302). -/
structure LinuxArgs where
  cmdline : List Nat
  cmdlineLen : Nat
  linuxBase : Nat
  linuxSize : Nat
  initrdBase : Nat
  initrdSize : Nat

/-- How a run of efi_main ends: an early error return (after reporting),
an assertion abort inside combine_initrd, or linux_exec returning a status. -/
inductive BootOutcome where
  | errorReturn (e : EfiStatus)
  | assertAbort
  | kernelReturned (e : EfiStatus)

/-- The environment of one efi_main invocation: the image, memory, the
collaborator oracles, and the three pack_cpio results (none = no archive
produced). -/
structure LoaderEnv where
  imageBase : Nat
  mem : Nat → Nat
  openProtocolErr : Option EfiStatus
  locate : Except EfiStatus ((PESection → Nat) × (PESection → Nat))
  secureBoot : Bool
  loadOptions : List Nat
  loadOptionsSize : Nat
  platform : Platform
  store0 : Store
  cred : Option Frag
  gcred : Option Frag
  sysext : Option Frag
  alloc : Nat → Nat → Except EfiStatus Nat
  linuxStatus : EfiStatus

/-- Observable trace of one efi_main run: outcome, whether
export_variables ran, how many pack_cpio calls were made, whether
combine_initrd was invoked, the allocation requests, the linux_exec
arguments (none if never called), and the final variable store and memory. -/
structure BootTrace where
  outcome : BootOutcome
  exported : Bool
  packCalls : Nat
  combineCalled : Bool
  allocCalls : List AllocCall
  linuxArgs : Option LinuxArgs
  store : Store
  mem : Nat → Nat

/-- efi_main (stub.c lines 150-305): open the loaded-image protocol, locate
sections (fatal if that fails or .linux is empty), select the command line,
export identity variables, request the three cpio archives, and either hand
the embedded initrd through unchanged or combine it with the produced
fragments before transferring to the kernel. -/
def efi_main (env : LoaderEnv) : BootTrace :=
  match env.openProtocolErr with
  | some e => ⟨.errorReturn e, false, 0, false, [], none, env.store0, env.mem⟩
  | none =>
    match env.locate with
    | .error e => ⟨.errorReturn e, false, 0, false, [], none, env.store0, env.mem⟩
    | .ok (addrs, szs) =>
      if szs .linux = 0 then
        ⟨.errorReturn .notFound, false, 0, false, [], none, env.store0, env.mem⟩
      else
        let embSize := szs .cmdline
        let embedded := readBytes env.mem (env.imageBase + addrs .cmdline) embSize
        let sel := select_cmdline env.secureBoot embedded embSize
          env.loadOptions env.loadOptionsSize
        let store1 := export_variables env.platform env.store0
        let linux_base := env.imageBase + addrs .linux
        let linux_size := szs .linux
        let initrd_size := szs .initrd
        let initrd_base := if initrd_size ≠ 0 then env.imageBase + addrs .initrd else 0
        if env.cred.isSome ∨ env.gcred.isSome ∨ env.sysext.isSome then
          let c := combine_initrd env.mem initrd_base initrd_size
            env.cred env.gcred env.sysext env.alloc
          match c.res with
          | .ok m2 b n =>
            ⟨.kernelReturned env.linuxStatus, true, 3, true, c.allocCalls,
              some ⟨sel.bytes, sel.len, linux_base, linux_size, b, n⟩, store1, m2⟩
          | .error e => ⟨.errorReturn e, true, 3, true, c.allocCalls, none, store1, env.mem⟩
          | .assertFail => ⟨.assertAbort, true, 3, true, c.allocCalls, none, store1, env.mem⟩
        else
          ⟨.kernelReturned env.linuxStatus, true, 3, false, [],
            some ⟨sel.bytes, sel.len, linux_base, linux_size, initrd_base, initrd_size⟩,
            store1, env.mem⟩

/-- Check-then-set for a single variable, used to characterize
export_variables: if the variable is absent and the computed value is
available, store it; otherwise leave the store unchanged. -/
def condSet (st : Store) (k : LoaderVar) (o : Option (List Nat)) : Store :=
  if (st k).isNone then
    match o with
    | some u => setVar st k u
    | none => st
  else st

/-! ### Concrete fixtures used to witness the theorems on sample inputs -/

/-- A sample memory. -/
def wMem : Nat → Nat := fun a => (a + 7) % 256

/-- A page allocator that always succeeds at base 100. -/
def wAllocOk : Nat → Nat → Except EfiStatus Nat := fun _ _ => Except.ok 100

/-- A page allocator that always fails with a device error code. -/
def wAllocFail : Nat → Nat → Except EfiStatus Nat := fun _ _ => Except.error (EfiStatus.err 5)

/-- A sample platform for the identity-export theorems. -/
def wPlatform : Platform := ⟨some [1], true, some [2], [3], [4], [5]⟩

/-- An empty variable store. -/
def wStore : Store := fun _ => none

/-- A variable store in which every managed variable is already set. -/
def wStoreFull : Store := fun _ => some [9]

/-- Sample section offsets. -/
def wAddrs : PESection → Nat := fun sec =>
  match sec with
  | .cmdline => 4096
  | .linux => 8192
  | .initrd => 12288
  | .splash => 16384
  | .dtb => 20480

/-- Sample section sizes (all five sections present). -/
def wSzs : PESection → Nat := fun sec =>
  match sec with
  | .cmdline => 2
  | .linux => 50
  | .initrd => 10
  | .splash => 0
  | .dtb => 0

/-- Sample section sizes with the mandatory kernel section empty. -/
def wSzsNoLinux : PESection → Nat := fun _ => 0

/-- A boot environment in which pack_cpio produces no fragments. -/
def wEnvNoFrags : LoaderEnv :=
  ⟨65536, wMem, none, Except.ok (wAddrs, wSzs), true, [], 0, wPlatform, wStore,
    none, none, none, wAllocOk, EfiStatus.success⟩

/-- A boot environment in which section resolution fails. -/
def wEnvLocFail : LoaderEnv :=
  ⟨65536, wMem, none, Except.error (EfiStatus.err 7), true, [], 0, wPlatform, wStore,
    none, none, none, wAllocOk, EfiStatus.success⟩

/-- A boot environment in which the kernel section has size zero. -/
def wEnvNoLinux : LoaderEnv :=
  ⟨65536, wMem, none, Except.ok (wAddrs, wSzsNoLinux), true, [], 0, wPlatform, wStore,
    none, none, none, wAllocOk, EfiStatus.success⟩

/-! ## General lemmas about the byte-memory model -/

theorem readBytes_length (m : Nat → Nat) (a n : Nat) : (readBytes m a n).length = n := by
  induction n generalizing a with
  | zero => rfl
  | succ k ih => simp [readBytes, ih]

theorem readBytes_congr {m1 m2 : Nat → Nat} (a n : Nat)
    (h : ∀ y, a ≤ y → y < a + n → m1 y = m2 y) :
    readBytes m1 a n = readBytes m2 a n := by
  induction n generalizing a with
  | zero => rfl
  | succ k ih =>
    simp only [readBytes]
    rw [h a le_rfl (by omega), ih (a + 1) (fun y hy1 hy2 => h y (by omega) (by omega))]

theorem writeBytes_frame (bs : List Nat) (m : Nat → Nat) (a y : Nat)
    (h : y < a ∨ a + bs.length ≤ y) : writeBytes m a bs y = m y := by
  induction bs generalizing m a with
  | nil => rfl
  | cons b t ih =>
    have hlen : (b :: t).length = t.length + 1 := rfl
    have h2 : y < a + 1 ∨ a + 1 + t.length ≤ y := by
      rcases h with h | h
      · left; omega
      · right; rw [hlen] at h; omega
    have hya : y ≠ a := by
      rcases h with h | h
      · omega
      · rw [hlen] at h; omega
    calc writeBytes m a (b :: t) y
        = writeBytes (fun z => if z = a then b else m z) (a + 1) t y := rfl
      _ = (fun z => if z = a then b else m z) y := ih _ _ h2
      _ = m y := by simp [hya]

theorem readBytes_writeBytes_eq (bs : List Nat) (m : Nat → Nat) (a : Nat) :
    readBytes (writeBytes m a bs) a bs.length = bs := by
  induction bs generalizing m a with
  | nil => rfl
  | cons b t ih =>
    show readBytes (writeBytes (fun z => if z = a then b else m z) (a + 1) t) a (t.length + 1)
        = b :: t
    simp only [readBytes]
    have hhead : writeBytes (fun z => if z = a then b else m z) (a + 1) t a = b := by
      rw [writeBytes_frame t _ (a + 1) a (by left; omega)]
      simp
    rw [hhead, ih]

theorem readBytes_writeBytes_disjoint (bs : List Nat) (m : Nat → Nat) (p a n : Nat)
    (h : a + n ≤ p ∨ p + bs.length ≤ a) :
    readBytes (writeBytes m p bs) a n = readBytes m a n := by
  apply readBytes_congr
  intro y hy1 hy2
  apply writeBytes_frame
  rcases h with h | h
  · left; omega
  · right; omega

theorem readBytes_append (m : Nat → Nat) (a n1 n2 : Nat) :
    readBytes m a (n1 + n2) = readBytes m a n1 ++ readBytes m (a + n1) n2 := by
  induction n1 generalizing a with
  | zero => simp [readBytes]
  | succ k ih =>
    have he : k + 1 + n2 = (k + n2) + 1 := by omega
    rw [he]
    simp only [readBytes]
    rw [ih (a + 1)]
    have ha : a + 1 + k = a + (k + 1) := by omega
    rw [ha]
    simp

theorem fragBytes_length (m : Nat → Nat) (f : Option Frag) :
    (fragBytes m f).length = fragSize f := by
  cases f <;> simp [fragBytes, fragSize, readBytes_length]

theorem fragBytes_write_frame (m : Nat → Nat) (p : Nat) (bs : List Nat) (f : Option Frag)
    (h : ∀ fr, f = some fr → fr.addr + fr.size ≤ p ∨ p + bs.length ≤ fr.addr) :
    fragBytes (writeBytes m p bs) f = fragBytes m f := by
  cases f with
  | none => rfl
  | some fr => exact readBytes_writeBytes_disjoint bs m p fr.addr fr.size (h fr rfl)

theorem fragBytes_congr {m1 m2 : Nat → Nat} (f : Option Frag)
    (h : ∀ fr, f = some fr → ∀ y, fr.addr ≤ y → y < fr.addr + fr.size → m1 y = m2 y) :
    fragBytes m1 f = fragBytes m2 f := by
  cases f with
  | none => rfl
  | some fr => exact readBytes_congr fr.addr fr.size (h fr rfl)

/-! ## Arithmetic lemmas -/

theorem two_pow_64_eq : (2 : Nat) ^ 64 = 18446744073709551616 := by norm_num

theorem UINTN_MAX_eq : UINTN_MAX = 18446744073709551615 := by norm_num [UINTN_MAX]

theorem align4_eq (s : Nat) (h : s + 3 < 2 ^ 64) : ALIGN4 s = (s + 3) / 4 * 4 := by
  unfold ALIGN4
  rw [Nat.mod_eq_of_lt h]

theorem align4_ge (s : Nat) (h : s + 3 < 2 ^ 64) : s ≤ ALIGN4 s := by
  rw [align4_eq s h]
  omega

theorem align4_le_max (s : Nat) : ALIGN4 s ≤ UINTN_MAX := by
  have h1 : (s + 3) % 2 ^ 64 < 2 ^ 64 := Nat.mod_lt _ (by positivity)
  have h2 : ALIGN4 s ≤ (s + 3) % 2 ^ 64 := Nat.div_mul_le_self _ _
  have h3 := two_pow_64_eq
  rw [UINTN_MAX_eq]
  omega

theorem size_to_pages_eq (n : Nat) : EFI_SIZE_TO_PAGES n = (n + 4095) / 4096 := by
  unfold EFI_SIZE_TO_PAGES
  split <;> omega

/-! ## Lemmas about the size-accounting phase -/

theorem addChecked_val (n : Nat) (f : Option Frag) (k : Nat)
    (h : addChecked n f = some k) : k = n + fragSize f := by
  cases f with
  | none =>
    simp only [addChecked, fragSize, Option.some.injEq] at h ⊢
    omega
  | some fr =>
    simp only [addChecked, fragSize] at h ⊢
    split_ifs at h with hif
    all_goals simp_all

theorem addChecked_le (n : Nat) (f : Option Frag) (k : Nat)
    (hn : n ≤ UINTN_MAX) (hf : fragSize f ≤ UINTN_MAX)
    (h : addChecked n f = some k) : k ≤ UINTN_MAX := by
  cases f with
  | none =>
    simp only [addChecked, Option.some.injEq] at h
    omega
  | some fr =>
    simp only [addChecked] at h
    simp only [fragSize] at hf
    split_ifs at h with hif
    all_goals simp_all
    all_goals omega

theorem combine_size_some (s : Nat) (c g x : Option Frag) (n : Nat)
    (h : combine_size s c g x = some n) :
    n = ALIGN4 s + fragSize c + fragSize g + fragSize x := by
  unfold combine_size at h
  rcases hc : addChecked (ALIGN4 s) c with _ | n1 <;> rw [hc] at h
  · simp at h
  rcases hg : addChecked n1 g with _ | n2 <;> rw [Option.some_bind] at h <;> rw [hg] at h
  · simp at h
  rcases hx : addChecked n2 x with _ | n3 <;> rw [Option.some_bind] at h <;> rw [hx] at h
  · simp at h
  simp only [Option.some.injEq] at h
  have e1 := addChecked_val _ _ _ hc
  have e2 := addChecked_val _ _ _ hg
  have e3 := addChecked_val _ _ _ hx
  omega

theorem combine_size_le (s : Nat) (c g x : Option Frag) (n : Nat)
    (hc : fragSize c ≤ UINTN_MAX) (hg : fragSize g ≤ UINTN_MAX)
    (hx : fragSize x ≤ UINTN_MAX)
    (h : combine_size s c g x = some n) : n ≤ UINTN_MAX := by
  unfold combine_size at h
  rcases h1 : addChecked (ALIGN4 s) c with _ | n1 <;> rw [h1] at h
  · simp at h
  rcases h2 : addChecked n1 g with _ | n2 <;> rw [Option.some_bind] at h <;> rw [h2] at h
  · simp at h
  rcases h3 : addChecked n2 x with _ | n3 <;> rw [Option.some_bind] at h <;> rw [h3] at h
  · simp at h
  simp only [Option.some.injEq] at h
  have e1 := addChecked_le _ _ _ (align4_le_max s) hc h1
  have e2 := addChecked_le _ _ _ e1 hg h2
  have e3 := addChecked_le _ _ _ e2 hx h3
  omega

theorem combine_size_overflow (s : Nat) (c g x : Option Frag)
    (hc : fragSize c ≤ UINTN_MAX) (hg : fragSize g ≤ UINTN_MAX)
    (hx : fragSize x ≤ UINTN_MAX)
    (h : UINTN_MAX < ALIGN4 s + fragSize c + fragSize g + fragSize x) :
    combine_size s c g x = none := by
  rcases hcs : combine_size s c g x with _ | n
  · rfl
  · exfalso
    have h1 := combine_size_some s c g x n hcs
    have h2 := combine_size_le s c g x n hc hg hx hcs
    omega

/-! ## Lemmas about the copy phase -/

theorem readBytes_writeBytes_len (bs : List Nat) (m : Nat → Nat) (a k : Nat)
    (hk : bs.length = k) : readBytes (writeBytes m a bs) a k = bs := by
  subst hk
  exact readBytes_writeBytes_eq bs m a

theorem copyFrag_eq (st : (Nat → Nat) × Nat) (f : Option Frag) :
    copyFrag st f = (writeBytes st.1 st.2 (fragBytes st.1 f), st.2 + fragSize f) := by
  cases f with
  | none => simp [copyFrag, fragBytes, fragSize, writeBytes]
  | some fr => rfl

theorem copyPrimary_cursor (m : Nat → Nat) (b ib s : Nat) :
    (copyPrimary m b ib s).2 = if ib ≠ 0 then b + s + (ALIGN4 s - s) else b := by
  unfold copyPrimary
  by_cases h : ib ≠ 0
  · rw [if_pos h, if_pos h]
  · rw [if_neg h, if_neg h]

theorem copyPrimary_frame (m : Nat → Nat) (b ib s y : Nat)
    (hy : y < b ∨ (copyPrimary m b ib s).2 ≤ y) :
    (copyPrimary m b ib s).1 y = m y := by
  rw [copyPrimary_cursor] at hy
  unfold copyPrimary
  by_cases h : ib ≠ 0
  · rw [if_pos h] at hy ⊢
    have l1 : (readBytes m ib s).length = s := readBytes_length m ib s
    have l2 : (List.replicate (ALIGN4 s - s) (0 : Nat)).length = ALIGN4 s - s :=
      List.length_replicate _ _
    show writeBytes (writeBytes m b (readBytes m ib s)) (b + s)
        (List.replicate (ALIGN4 s - s) 0) y = m y
    rw [writeBytes_frame (List.replicate (ALIGN4 s - s) 0) _ (b + s) y
        (by rw [l2]; omega),
      writeBytes_frame (readBytes m ib s) m b y (by rw [l1]; omega)]
  · rw [if_neg h]

theorem copyPrimary_read (m : Nat → Nat) (b ib s : Nat) (hib : ib ≠ 0) :
    readBytes (copyPrimary m b ib s).1 b (s + (ALIGN4 s - s)) =
      readBytes m ib s ++ List.replicate (ALIGN4 s - s) 0 := by
  unfold copyPrimary
  rw [if_pos hib]
  show readBytes (writeBytes (writeBytes m b (readBytes m ib s)) (b + s)
      (List.replicate (ALIGN4 s - s) 0)) b (s + (ALIGN4 s - s)) =
    readBytes m ib s ++ List.replicate (ALIGN4 s - s) 0
  rw [readBytes_append]
  have l1 : (readBytes m ib s).length = s := readBytes_length m ib s
  have l2 : (List.replicate (ALIGN4 s - s) (0 : Nat)).length = ALIGN4 s - s :=
    List.length_replicate _ _
  congr 1
  · rw [readBytes_writeBytes_disjoint _ _ _ _ _ (Or.inl (le_refl (b + s)))]
    exact readBytes_writeBytes_len _ _ _ _ l1
  · exact readBytes_writeBytes_len _ _ _ _ l2

theorem copyPhase_cursor (m : Nat → Nat) (b ib s : Nat) (c g x : Option Frag) :
    (copyPhase m b ib s c g x).2 =
      (copyPrimary m b ib s).2 + fragSize c + fragSize g + fragSize x := by
  unfold copyPhase
  simp only [copyFrag_eq]

theorem copyPhase_frame (m : Nat → Nat) (b ib s : Nat) (c g x : Option Frag) (y : Nat)
    (hy : y < b ∨ (copyPhase m b ib s c g x).2 ≤ y) :
    (copyPhase m b ib s c g x).1 y = m y := by
  rw [copyPhase_cursor] at hy
  have hP2 : b ≤ (copyPrimary m b ib s).2 := by
    rw [copyPrimary_cursor]
    split <;> omega
  show (copyFrag (copyFrag (copyFrag (copyPrimary m b ib s) c) g) x).1 y = m y
  simp only [copyFrag_eq]
  set P := copyPrimary m b ib s with hP
  set m1 := writeBytes P.1 P.2 (fragBytes P.1 c) with hm1
  set m2 := writeBytes m1 (P.2 + fragSize c) (fragBytes m1 g) with hm2
  have e3 : writeBytes m2 (P.2 + fragSize c + fragSize g) (fragBytes m2 x) y = m2 y :=
    writeBytes_frame _ m2 _ y (by rw [fragBytes_length]; omega)
  have e2 : m2 y = m1 y := by
    rw [hm2]
    exact writeBytes_frame _ m1 _ y (by rw [fragBytes_length]; omega)
  have e1 : m1 y = P.1 y := by
    rw [hm1]
    exact writeBytes_frame _ P.1 _ y (by rw [fragBytes_length]; omega)
  have e0 : P.1 y = m y := copyPrimary_frame m b ib s y (by rw [← hP]; omega)
  exact e3.trans (e2.trans (e1.trans e0))

theorem copyFrags_content
    (m mP : Nat → Nat) (b A4 n : Nat) (c g x : Option Frag) (pre : List Nat)
    (hn : n = A4 + fragSize c + fragSize g + fragSize x)
    (hpre : readBytes mP b A4 = pre)
    (hframe : ∀ y, y < b ∨ b + A4 ≤ y → mP y = m y)
    (hc : ∀ fr, c = some fr → fr.addr + fr.size ≤ b ∨ b + n ≤ fr.addr)
    (hg : ∀ fr, g = some fr → fr.addr + fr.size ≤ b ∨ b + n ≤ fr.addr)
    (hx : ∀ fr, x = some fr → fr.addr + fr.size ≤ b ∨ b + n ≤ fr.addr) :
    readBytes (copyFrag (copyFrag (copyFrag (mP, b + A4) c) g) x).1 b n =
      pre ++ fragBytes m c ++ fragBytes m g ++ fragBytes m x := by
  have hC : fragBytes mP c = fragBytes m c := by
    apply fragBytes_congr
    intro fr hf y hy1 hy2
    apply hframe
    rcases hc fr hf with h | h
    · left; omega
    · right; omega
  have hG0 : fragBytes mP g = fragBytes m g := by
    apply fragBytes_congr
    intro fr hf y hy1 hy2
    apply hframe
    rcases hg fr hf with h | h
    · left; omega
    · right; omega
  have hX0 : fragBytes mP x = fragBytes m x := by
    apply fragBytes_congr
    intro fr hf y hy1 hy2
    apply hframe
    rcases hx fr hf with h | h
    · left; omega
    · right; omega
  have lC : (fragBytes m c).length = fragSize c := by rw [← hC]; exact fragBytes_length _ _
  have lG : (fragBytes m g).length = fragSize g := by rw [← hG0]; exact fragBytes_length _ _
  have lX : (fragBytes m x).length = fragSize x := by rw [← hX0]; exact fragBytes_length _ _
  set BC := fragBytes m c with hBC
  set BG := fragBytes m g with hBGd
  set BX := fragBytes m x with hBXd
  set mC := writeBytes mP (b + A4) BC with hmC
  set mG := writeBytes mC (b + A4 + fragSize c) BG with hmG
  set mX := writeBytes mG (b + A4 + fragSize c + fragSize g) BX with hmX
  have hG : fragBytes mC g = BG := by
    rw [hmC, fragBytes_write_frame]
    · exact hG0
    · intro fr hf
      rcases hg fr hf with h | h
      · left; omega
      · right; rw [lC]; omega
  have hX1 : fragBytes mG x = BX := by
    rw [hmG, fragBytes_write_frame]
    · rw [hmC, fragBytes_write_frame]
      · exact hX0
      · intro fr hf
        rcases hx fr hf with h | h
        · left; omega
        · right; rw [lC]; omega
    · intro fr hf
      rcases hx fr hf with h | h
      · left; omega
      · right; rw [lG]; omega
  have estep : (copyFrag (copyFrag (copyFrag (mP, b + A4) c) g) x).1 = mX := by
    rw [copyFrag_eq, copyFrag_eq, copyFrag_eq]
    simp only
    rw [hC, hG, hX1]
  rw [estep, hn]
  rw [readBytes_append mX b (A4 + fragSize c + fragSize g) (fragSize x),
    readBytes_append mX b (A4 + fragSize c) (fragSize g),
    readBytes_append mX b A4 (fragSize c)]
  have seg1 : readBytes mX b A4 = pre := by
    rw [hmX, readBytes_writeBytes_disjoint _ _ _ _ _ (Or.inl (by omega))]
    rw [hmG, readBytes_writeBytes_disjoint _ _ _ _ _ (Or.inl (by omega))]
    rw [hmC, readBytes_writeBytes_disjoint _ _ _ _ _ (Or.inl (by omega))]
    exact hpre
  have seg2 : readBytes mX (b + A4) (fragSize c) = BC := by
    rw [hmX, readBytes_writeBytes_disjoint _ _ _ _ _ (Or.inl (by omega))]
    rw [hmG, readBytes_writeBytes_disjoint _ _ _ _ _ (Or.inl (by omega))]
    rw [hmC]
    exact readBytes_writeBytes_len _ _ _ _ lC
  have seg3 : readBytes mX (b + (A4 + fragSize c)) (fragSize g) = BG := by
    have hp : b + (A4 + fragSize c) = b + A4 + fragSize c := by omega
    rw [hp, hmX, readBytes_writeBytes_disjoint _ _ _ _ _ (Or.inl (by omega))]
    rw [hmG]
    exact readBytes_writeBytes_len _ _ _ _ lG
  have seg4 : readBytes mX (b + (A4 + fragSize c + fragSize g)) (fragSize x) = BX := by
    have hp : b + (A4 + fragSize c + fragSize g) = b + A4 + fragSize c + fragSize g := by
      omega
    rw [hp, hmX]
    exact readBytes_writeBytes_len _ _ _ _ lX
  rw [seg1, seg2, seg3, seg4]

/-! ## Lemmas about the identity export -/

theorem setVar_other (st : Store) (k : LoaderVar) (v : List Nat) (w : LoaderVar)
    (h : w ≠ k) : setVar st k v w = st w := by
  simp [setVar, h]

theorem condSet_other (st : Store) (k : LoaderVar) (o : Option (List Nat)) (w : LoaderVar)
    (h : w ≠ k) : condSet st k o w = st w := by
  unfold condSet
  split_ifs with h1
  · cases o with
    | none => rfl
    | some u => exact setVar_other st k u w h
  · rfl

theorem condSet_same (st : Store) (k : LoaderVar) (o : Option (List Nat)) :
    condSet st k o k =
      (match st k with
       | some u => some u
       | none => o) := by
  unfold condSet
  rcases h : st k with _ | u
  · cases o with
    | some u => simp [setVar]
    | none => simp [h]
  · simp [h]

theorem export_eq (pl : Platform) (st : Store) :
    export_variables pl st =
      condSet (condSet (condSet (condSet (condSet st .devicePartUUID pl.diskUUID)
          .imageIdentifier (if pl.filePath then pl.pathStr else none))
        .firmwareInfo (some pl.fwInfo)) .firmwareType (some pl.fwType))
        .stubId (some pl.stubStr) := by
  unfold export_variables condSet
  rcases hfp : pl.filePath with _ | _ <;> simp

theorem export_get (pl : Platform) (st : Store) (v : LoaderVar) :
    export_variables pl st v =
      (match st v with
       | some u => some u
       | none => exportValue pl v) := by
  rw [export_eq]
  cases v with
  | devicePartUUID =>
    rw [condSet_other _ LoaderVar.stubId _ LoaderVar.devicePartUUID (by decide),
      condSet_other _ LoaderVar.firmwareType _ LoaderVar.devicePartUUID (by decide),
      condSet_other _ LoaderVar.firmwareInfo _ LoaderVar.devicePartUUID (by decide),
      condSet_other _ LoaderVar.imageIdentifier _ LoaderVar.devicePartUUID (by decide),
      condSet_same]
    rfl
  | imageIdentifier =>
    rw [condSet_other _ LoaderVar.stubId _ LoaderVar.imageIdentifier (by decide),
      condSet_other _ LoaderVar.firmwareType _ LoaderVar.imageIdentifier (by decide),
      condSet_other _ LoaderVar.firmwareInfo _ LoaderVar.imageIdentifier (by decide),
      condSet_same,
      condSet_other _ LoaderVar.devicePartUUID _ LoaderVar.imageIdentifier (by decide)]
    rfl
  | firmwareInfo =>
    rw [condSet_other _ LoaderVar.stubId _ LoaderVar.firmwareInfo (by decide),
      condSet_other _ LoaderVar.firmwareType _ LoaderVar.firmwareInfo (by decide),
      condSet_same,
      condSet_other _ LoaderVar.imageIdentifier _ LoaderVar.firmwareInfo (by decide),
      condSet_other _ LoaderVar.devicePartUUID _ LoaderVar.firmwareInfo (by decide)]
    rfl
  | firmwareType =>
    rw [condSet_other _ LoaderVar.stubId _ LoaderVar.firmwareType (by decide),
      condSet_same,
      condSet_other _ LoaderVar.firmwareInfo _ LoaderVar.firmwareType (by decide),
      condSet_other _ LoaderVar.imageIdentifier _ LoaderVar.firmwareType (by decide),
      condSet_other _ LoaderVar.devicePartUUID _ LoaderVar.firmwareType (by decide)]
    rfl
  | stubId =>
    rw [condSet_same,
      condSet_other _ LoaderVar.firmwareType _ LoaderVar.stubId (by decide),
      condSet_other _ LoaderVar.firmwareInfo _ LoaderVar.stubId (by decide),
      condSet_other _ LoaderVar.imageIdentifier _ LoaderVar.stubId (by decide),
      condSet_other _ LoaderVar.devicePartUUID _ LoaderVar.stubId (by decide)]
    rfl

/-! ## Lemmas about the command-line transcoding -/

theorem rangeMap_getD (l : List Nat) :
    (List.range l.length).map (fun i => l.getD i 0 % 256) = l.map (fun u => u % 256) := by
  induction l with
  | nil => rfl
  | cons a t ih =>
    show (List.range (t.length + 1)).map (fun i => (a :: t).getD i 0 % 256) = _
    rw [List.range_succ_eq_map]
    simp only [List.map_cons, List.map_map]
    congr 1

theorem combine_initrd_ok_inv (m : Nat → Nat) (ib s : Nat) (c g x : Option Frag)
    (alloc : Nat → Nat → Except EfiStatus Nat) (m2 : Nat → Nat) (b n : Nat)
    (h : (combine_initrd m ib s c g x alloc).res = CombineResult.ok m2 b n) :
    combine_size s c g x = some n ∧
    alloc (EFI_SIZE_TO_PAGES n) UINT32_MAX = Except.ok b ∧
    copyPhase m b ib s c g x = (m2, b + n) := by
  unfold combine_initrd at h
  rcases hcs : combine_size s c g x with _ | n0 <;> rw [hcs] at h <;> dsimp only at h
  · simp at h
  rcases hal : alloc (EFI_SIZE_TO_PAGES n0) UINT32_MAX with e | b0 <;>
    rw [hal] at h <;> dsimp only at h
  · simp at h
  split_ifs at h with hcur
  simp only [CombineResult.ok.injEq] at h
  obtain ⟨h1, h2, h3⟩ := h
  subst h2
  subst h3
  exact ⟨rfl, hal, Prod.ext_iff.mpr ⟨h1, hcur⟩⟩

/-- C1: when combine_initrd succeeds, the returned size is align4(primary
size) plus the sizes of the present fragments, and the output region holds
the primary bytes, then the alignment zero padding, then the present
fragments' bytes in the fixed order credential, global-credential,
system-extension, with no gaps (fragment buffers assumed disjoint from the
freshly allocated output region). -/
theorem combine_initrd_layout
    (m : Nat → Nat) (ib s : Nat) (c g x : Option Frag)
    (alloc : Nat → Nat → Except EfiStatus Nat) (m2 : Nat → Nat) (b n : Nat)
    (hs : s + 3 < 2 ^ 64)
    (hok : (combine_initrd m ib s c g x alloc).res = CombineResult.ok m2 b n)
    (hc : ∀ fr, c = some fr → fr.addr + fr.size ≤ b ∨ b + n ≤ fr.addr)
    (hg : ∀ fr, g = some fr → fr.addr + fr.size ≤ b ∨ b + n ≤ fr.addr)
    (hx : ∀ fr, x = some fr → fr.addr + fr.size ≤ b ∨ b + n ≤ fr.addr) :
    n = (s + 3) / 4 * 4 + fragSize c + fragSize g + fragSize x ∧
    readBytes m2 b n =
      readBytes m ib s ++ List.replicate ((s + 3) / 4 * 4 - s) 0 ++
        fragBytes m c ++ fragBytes m g ++ fragBytes m x := by
  obtain ⟨hcs, hal, hcp⟩ := combine_initrd_ok_inv m ib s c g x alloc m2 b n hok
  have hA4 : ALIGN4 s = (s + 3) / 4 * 4 := align4_eq s hs
  have hsA : s ≤ ALIGN4 s := align4_ge s hs
  have hn := combine_size_some s c g x n hcs
  have hm2 : m2 = (copyPhase m b ib s c g x).1 := by rw [hcp]
  refine ⟨by rw [← hA4]; exact hn, ?_⟩
  by_cases hib : ib ≠ 0
  · have hP := copyPrimary_read m b ib s hib
    have hcur := copyPrimary_cursor m b ib s
    rw [if_pos hib] at hcur
    have hsum : s + (ALIGN4 s - s) = ALIGN4 s := by omega
    rw [hsum] at hP
    have hPpair : copyPrimary m b ib s = ((copyPrimary m b ib s).1, b + ALIGN4 s) :=
      Prod.ext_iff.mpr ⟨rfl, by rw [hcur]; omega⟩
    have hmain :
        readBytes (copyFrag (copyFrag (copyFrag
            ((copyPrimary m b ib s).1, b + ALIGN4 s) c) g) x).1 b n =
          (readBytes m ib s ++ List.replicate (ALIGN4 s - s) 0) ++
            fragBytes m c ++ fragBytes m g ++ fragBytes m x := by
      apply copyFrags_content m _ b (ALIGN4 s) n c g x _ hn hP _ hc hg hx
      intro y hy
      apply copyPrimary_frame m b ib s y
      rw [hcur]
      omega
    have hcp1 : (copyPhase m b ib s c g x).1 =
        (copyFrag (copyFrag (copyFrag
          ((copyPrimary m b ib s).1, b + ALIGN4 s) c) g) x).1 := by
      unfold copyPhase
      rw [← hPpair]
    rw [hm2, hcp1, hmain, hA4]
  · have hcurp : (copyPrimary m b ib s).2 = b := by
      rw [copyPrimary_cursor, if_neg hib]
    have hcur2 : (copyPhase m b ib s c g x).2 = b + n := by rw [hcp]
    have h3 := copyPhase_cursor m b ib s c g x
    have hA0 : ALIGN4 s = 0 := by
      rw [hcurp] at h3
      omega
    have hs0 : s = 0 := by omega
    subst hs0
    have hPnone : copyPrimary m b ib 0 = (m, b) := by
      unfold copyPrimary
      rw [if_neg hib]
    have hmain :
        readBytes (copyFrag (copyFrag (copyFrag (m, b + 0) c) g) x).1 b n =
          ([] : List Nat) ++ fragBytes m c ++ fragBytes m g ++ fragBytes m x := by
      apply copyFrags_content m m b 0 n c g x [] (by omega) rfl _ hc hg hx
      intro y hy
      rfl
    have hcp1 : (copyPhase m b ib 0 c g x).1 =
        (copyFrag (copyFrag (copyFrag (m, b + 0) c) g) x).1 := by
      unfold copyPhase
      rw [hPnone, Nat.add_zero]
    rw [hm2, hcp1, hmain]
    simp [readBytes]

/-- C2: if the aligned primary size plus the present fragment sizes exceeds
UINTN_MAX, combine_initrd fails with EFI_OUT_OF_RESOURCES and issues no
allocation request (the overflow checks run before the allocation). -/
theorem combine_initrd_overflow_guard
    (m : Nat → Nat) (ib s : Nat) (c g x : Option Frag)
    (alloc : Nat → Nat → Except EfiStatus Nat)
    (hs : s + 3 < 2 ^ 64)
    (hc : fragSize c ≤ UINTN_MAX) (hg : fragSize g ≤ UINTN_MAX)
    (hx : fragSize x ≤ UINTN_MAX)
    (hover : UINTN_MAX < (s + 3) / 4 * 4 + fragSize c + fragSize g + fragSize x) :
    (combine_initrd m ib s c g x alloc).res =
        CombineResult.error EfiStatus.outOfResources ∧
    (combine_initrd m ib s c g x alloc).allocCalls = [] := by
  have hnone : combine_size s c g x = none :=
    combine_size_overflow s c g x hc hg hx (by rw [align4_eq s hs]; omega)
  unfold combine_initrd
  rw [hnone]
  exact ⟨rfl, rfl⟩

/-- C7: combine_initrd requests exactly one page allocation, for
ceil(total/4096) pages below the 32-bit boundary; if the allocator fails,
the failing status is the result and is reported exactly once. -/
theorem combine_initrd_allocation
    (m : Nat → Nat) (ib s : Nat) (c g x : Option Frag)
    (alloc : Nat → Nat → Except EfiStatus Nat) (n : Nat)
    (hn : combine_size s c g x = some n) :
    (combine_initrd m ib s c g x alloc).allocCalls =
        [⟨(n + 4095) / 4096, UINT32_MAX⟩] ∧
    ∀ e, alloc (EFI_SIZE_TO_PAGES n) UINT32_MAX = Except.error e →
      (combine_initrd m ib s c g x alloc).res = CombineResult.error e ∧
      (combine_initrd m ib s c g x alloc).logs = [e] := by
  unfold combine_initrd
  rw [hn]
  dsimp only
  constructor
  · rcases hal : alloc (EFI_SIZE_TO_PAGES n) UINT32_MAX with e | b <;> dsimp only
    · rw [size_to_pages_eq]
    · split_ifs <;> dsimp only <;> rw [size_to_pages_eq]
  · intro e he
    rw [he]
    exact ⟨rfl, rfl⟩

/-- C9: under the caller-maintained precondition that the primary address
is nonzero or the primary size is zero, the end-of-copy assertion of
combine_initrd never fails; and with primary address 0 the copy phase
writes no primary bytes and no padding regardless of the primary size. -/
theorem combine_initrd_cursor_assert
    (m : Nat → Nat) (ib s : Nat) (c g x : Option Frag)
    (alloc : Nat → Nat → Except EfiStatus Nat)
    (hs : s + 3 < 2 ^ 64) :
    ((ib ≠ 0 ∨ s = 0) →
      (combine_initrd m ib s c g x alloc).res ≠ CombineResult.assertFail) ∧
    (ib = 0 → ∀ b, copyPhase m b ib s c g x = copyPhase m b ib 0 c g x) := by
  constructor
  · intro hprec
    unfold combine_initrd
    rcases hcs : combine_size s c g x with _ | n
    · simp
    dsimp only
    rcases hal : alloc (EFI_SIZE_TO_PAGES n) UINT32_MAX with e | b
    · simp
    dsimp only
    have hcur : (copyPhase m b ib s c g x).2 = b + n := by
      have hn := combine_size_some s c g x n hcs
      have hsA := align4_ge s hs
      rw [copyPhase_cursor, copyPrimary_cursor]
      rcases hprec with hib | hs0
      · rw [if_pos hib]
        omega
      · have hA0 : ALIGN4 s = 0 := by
          rw [align4_eq s hs]
          omega
        split_ifs <;> omega
    rw [if_pos hcur]
    simp
  · intro hib0 b
    subst hib0
    simp [copyPhase, copyPrimary]

/-- C10: combine_initrd writes only into the freshly allocated output
region: on success every byte outside [base, base+size) is unchanged, so
the primary initrd bytes and every present fragment buffer, being disjoint
from the fresh region, read back unchanged. -/
theorem combine_initrd_frame
    (m : Nat → Nat) (ib s : Nat) (c g x : Option Frag)
    (alloc : Nat → Nat → Except EfiStatus Nat) (m2 : Nat → Nat) (b n : Nat)
    (hok : (combine_initrd m ib s c g x alloc).res = CombineResult.ok m2 b n) :
    (∀ y, y < b ∨ b + n ≤ y → m2 y = m y) ∧
    ((ib + s ≤ b ∨ b + n ≤ ib) → readBytes m2 ib s = readBytes m ib s) ∧
    (∀ fr, c = some fr → fr.addr + fr.size ≤ b ∨ b + n ≤ fr.addr →
      readBytes m2 fr.addr fr.size = readBytes m fr.addr fr.size) ∧
    (∀ fr, g = some fr → fr.addr + fr.size ≤ b ∨ b + n ≤ fr.addr →
      readBytes m2 fr.addr fr.size = readBytes m fr.addr fr.size) ∧
    (∀ fr, x = some fr → fr.addr + fr.size ≤ b ∨ b + n ≤ fr.addr →
      readBytes m2 fr.addr fr.size = readBytes m fr.addr fr.size) := by
  obtain ⟨hcs, hal, hcp⟩ := combine_initrd_ok_inv m ib s c g x alloc m2 b n hok
  have hframe : ∀ y, y < b ∨ b + n ≤ y → m2 y = m y := by
    intro y hy
    have h1 : (copyPhase m b ib s c g x).1 = m2 := by rw [hcp]
    rw [← h1]
    apply copyPhase_frame
    rw [hcp]
    exact hy
  refine ⟨hframe, ?_, ?_, ?_, ?_⟩
  · intro hdisj
    exact readBytes_congr ib s (fun y hy1 hy2 => hframe y (by omega))
  · intro fr hfr hdisj
    exact readBytes_congr fr.addr fr.size (fun y hy1 hy2 => hframe y (by omega))
  · intro fr hfr hdisj
    exact readBytes_congr fr.addr fr.size (fun y hy1 hy2 => hframe y (by omega))
  · intro fr hfr hdisj
    exact readBytes_congr fr.addr fr.size (fun y hy1 hy2 => hframe y (by omega))

/-- C3: the caller-supplied override is used iff (secure boot is disabled
or there is no embedded command line) and the override is non-empty and its
first 16-bit unit exceeds 0x1F; otherwise the embedded command line, if
present, is used unmodified, and with neither source the command line is
empty. -/
theorem cmdline_selection_policy (sb : Bool) (emb : List Nat) (es : Nat)
    (opts : List Nat) (os : Nat) :
    ((select_cmdline sb emb es opts os).usedOverride = true ↔
      ((sb = false ∨ es = 0) ∧ 0 < os ∧ 0x1F < opts.getD 0 0)) ∧
    ((select_cmdline sb emb es opts os).usedOverride = false →
      (select_cmdline sb emb es opts os).bytes = (if 0 < es then emb else []) ∧
      (select_cmdline sb emb es opts os).len = (if 0 < es then es else 0)) ∧
    (es = 0 → (select_cmdline sb emb es opts os).usedOverride = false →
      (select_cmdline sb emb es opts os).bytes = [] ∧
      (select_cmdline sb emb es opts os).len = 0) := by
  have hlen0 : ((if es > 0 then es else 0) = 0) ↔ es = 0 := by
    split_ifs <;> omega
  simp only [select_cmdline, hlen0]
  by_cases h : (sb = false ∨ es = 0) ∧ 0 < os ∧ 0x1F < opts.getD 0 0
  · rw [if_pos h]
    exact ⟨⟨fun _ => h, fun _ => rfl⟩, fun hfalse => Bool.noConfusion hfalse,
      fun _ hfalse => Bool.noConfusion hfalse⟩
  · rw [if_neg h]
    refine ⟨⟨fun hft => Bool.noConfusion hft, fun hcond => absurd hcond h⟩,
      fun _ => ⟨rfl, rfl⟩, fun hes _ => ?_⟩
    subst hes
    exact ⟨by simp, by simp⟩

/-- C6: when the override is accepted, the narrow command line is obtained
by truncating each 16-bit unit of the override to its low 8 bits in order,
and its length is the override byte length divided by two. -/
theorem cmdline_override_transcoding (sb : Bool) (emb : List Nat) (es : Nat)
    (opts : List Nat) (os : Nat)
    (hused : (select_cmdline sb emb es opts os).usedOverride = true)
    (hos : os = 2 * opts.length) :
    (select_cmdline sb emb es opts os).bytes = opts.map (fun u => u % 256) ∧
    (select_cmdline sb emb es opts os).len = os / 2 := by
  simp only [select_cmdline] at hused ⊢
  by_cases h : (sb = false ∨ (if es > 0 then es else 0) = 0) ∧ 0 < os ∧
      0x1F < opts.getD 0 0
  · rw [if_pos h]
    have h2 : os / 2 = opts.length := by omega
    constructor
    · show (List.range (os / 2)).map (fun i => opts.getD i 0 % 256) = _
      rw [h2, rangeMap_getD]
    · rfl
  · rw [if_neg h] at hused
    exact Bool.noConfusion hused

/-- C5: the loader identity export is idempotent: each variable is set only
when a get reports it absent, so a second invocation against the same
platform state changes nothing and an already-present value is never
overwritten. -/
theorem export_variables_idempotent (pl : Platform) (st : Store) (v : LoaderVar) :
    export_variables pl (export_variables pl st) v = export_variables pl st v ∧
    (∀ u, st v = some u → export_variables pl st v = some u) := by
  have h1 := export_get pl st v
  have h2 := export_get pl (export_variables pl st) v
  constructor
  · rw [h2, h1]
    rcases hv : st v with _ | u
    · rcases he : exportValue pl v with _ | w <;> simp
    · simp
  · intro u hu
    rw [h1, hu]

/-- C4: if none of the three fragment archives is produced, combine_initrd
is never invoked, no allocation is requested, memory is not written, and
the initrd address and size handed to linux_exec are the embedded initrd
section's address and size unchanged. -/
theorem no_fragments_passthrough (env : LoaderEnv)
    (addrs szs : PESection → Nat)
    (hopen : env.openProtocolErr = none)
    (hloc : env.locate = Except.ok (addrs, szs))
    (hlinux : ¬ szs PESection.linux = 0)
    (hcred : env.cred = none) (hgcred : env.gcred = none) (hsysext : env.sysext = none)
    (hinitrd : szs PESection.initrd ≠ 0) :
    (efi_main env).combineCalled = false ∧
    (efi_main env).allocCalls = [] ∧
    (efi_main env).mem = env.mem ∧
    (efi_main env).linuxArgs.map (fun a => (a.initrdBase, a.initrdSize)) =
      some (env.imageBase + addrs PESection.initrd, szs PESection.initrd) := by
  unfold efi_main
  rw [hopen, hloc]
  dsimp only
  rw [if_neg hlinux, hcred, hgcred, hsysext]
  rw [if_neg (by simp)]
  refine ⟨rfl, rfl, rfl, ?_⟩
  dsimp only [Option.map]
  rw [if_pos hinitrd]

/-- C8: if section resolution fails, or succeeds with an empty kernel
section, efi_main halts at its first step with the fatal status and nothing
else happens: no variable export, no pack_cpio call, no allocation, no
combine_initrd invocation, no linux_exec call, stores and memory untouched. -/
theorem missing_kernel_halts (env : LoaderEnv)
    (hopen : env.openProtocolErr = none) :
    (∀ e, env.locate = Except.error e →
      efi_main env = ⟨BootOutcome.errorReturn e, false, 0, false, [], none,
        env.store0, env.mem⟩) ∧
    (∀ addrs szs, env.locate = Except.ok (addrs, szs) → szs PESection.linux = 0 →
      efi_main env = ⟨BootOutcome.errorReturn EfiStatus.notFound, false, 0, false, [],
        none, env.store0, env.mem⟩) := by
  constructor
  · intro e he
    unfold efi_main
    rw [hopen, he]
  · intro addrs szs hok hzero
    unfold efi_main
    rw [hopen, hok]
    dsimp only
    rw [if_pos hzero]

/-! ## Witnesses: the theorems applied at concrete inputs -/

/-- Witness for C1 on a 10-byte primary at 1000 and a 7-byte credential
fragment at 2000, output at base 100 with size align4(10)+7 = 19. -/
theorem combine_initrd_layout_witness :
    19 = (10 + 3) / 4 * 4 + fragSize (some ⟨2000, 7⟩) + fragSize none + fragSize none ∧
    readBytes (copyPhase wMem 100 1000 10 (some ⟨2000, 7⟩) none none).1 100 19 =
      readBytes wMem 1000 10 ++ List.replicate ((10 + 3) / 4 * 4 - 10) 0 ++
        fragBytes wMem (some ⟨2000, 7⟩) ++ fragBytes wMem none ++ fragBytes wMem none :=
  combine_initrd_layout wMem 1000 10 (some ⟨2000, 7⟩) none none wAllocOk
    (copyPhase wMem 100 1000 10 (some ⟨2000, 7⟩) none none).1 100 19
    (by decide) rfl
    (fun fr hfr => by cases hfr; right; decide)
    (fun fr hfr => Option.noConfusion hfr)
    (fun fr hfr => Option.noConfusion hfr)

/-- Witness for C2: primary size 2^64-8 plus a 100-byte fragment overflows,
so the call fails with EFI_OUT_OF_RESOURCES and no allocation happens. -/
theorem combine_initrd_overflow_guard_witness :
    (combine_initrd wMem 0 18446744073709551608 (some ⟨0, 100⟩) none none wAllocOk).res =
        CombineResult.error EfiStatus.outOfResources ∧
    (combine_initrd wMem 0 18446744073709551608 (some ⟨0, 100⟩) none none
        wAllocOk).allocCalls = [] :=
  combine_initrd_overflow_guard wMem 0 18446744073709551608 (some ⟨0, 100⟩) none none
    wAllocOk (by decide) (by decide) (by decide) (by decide) (by decide)

/-- Witness for C3: secure boot disabled with an embedded command line
present and a well-formed override: the override wins. -/
theorem cmdline_selection_policy_witness :
    (select_cmdline false [65, 66] 2 [97, 98] 4).usedOverride = true :=
  (cmdline_selection_policy false [65, 66] 2 [97, 98] 4).1.mpr
    ⟨Or.inl rfl, by decide, by decide⟩

/-- Witness for C4 on a concrete environment with no produced fragments. -/
theorem no_fragments_passthrough_witness :
    (efi_main wEnvNoFrags).combineCalled = false ∧
    (efi_main wEnvNoFrags).allocCalls = [] ∧
    (efi_main wEnvNoFrags).mem = wEnvNoFrags.mem ∧
    (efi_main wEnvNoFrags).linuxArgs.map (fun a => (a.initrdBase, a.initrdSize)) =
      some (wEnvNoFrags.imageBase + wAddrs PESection.initrd, wSzs PESection.initrd) :=
  no_fragments_passthrough wEnvNoFrags wAddrs wSzs rfl rfl (by decide) rfl rfl rfl
    (by decide)

/-- Witness for C5: a second export changes nothing, and a present value
is preserved. -/
theorem export_variables_idempotent_witness :
    export_variables wPlatform (export_variables wPlatform wStore) LoaderVar.stubId =
      export_variables wPlatform wStore LoaderVar.stubId ∧
    export_variables wPlatform wStoreFull LoaderVar.stubId = some [9] :=
  ⟨(export_variables_idempotent wPlatform wStore LoaderVar.stubId).1,
    (export_variables_idempotent wPlatform wStoreFull LoaderVar.stubId).2 [9] rfl⟩

/-- Witness for C6: an accepted override [65, 256] is truncated per 16-bit
unit (256 becomes 0) and the narrow length is half the byte length. -/
theorem cmdline_override_transcoding_witness :
    (select_cmdline false [] 0 [65, 256] 4).bytes = [65, 256].map (fun u => u % 256) ∧
    (select_cmdline false [] 0 [65, 256] 4).len = 4 / 2 :=
  cmdline_override_transcoding false [] 0 [65, 256] 4 (by decide) rfl

/-- Witness for C7: for total size 19 exactly one one-page request below
the 32-bit boundary is issued, and a failing allocator's status is returned
and reported. -/
theorem combine_initrd_allocation_witness :
    (combine_initrd wMem 1000 10 (some ⟨2000, 7⟩) none none wAllocFail).allocCalls =
        [⟨(19 + 4095) / 4096, UINT32_MAX⟩] ∧
    (combine_initrd wMem 1000 10 (some ⟨2000, 7⟩) none none wAllocFail).res =
        CombineResult.error (EfiStatus.err 5) ∧
    (combine_initrd wMem 1000 10 (some ⟨2000, 7⟩) none none wAllocFail).logs =
        [EfiStatus.err 5] :=
  ⟨(combine_initrd_allocation wMem 1000 10 (some ⟨2000, 7⟩) none none wAllocFail
      19 rfl).1,
    (combine_initrd_allocation wMem 1000 10 (some ⟨2000, 7⟩) none none wAllocFail
      19 rfl).2 (EfiStatus.err 5) rfl⟩

/-- Witness for C8 on two concrete environments: section resolution failure
and an empty kernel section. -/
theorem missing_kernel_halts_witness :
    efi_main wEnvLocFail = ⟨BootOutcome.errorReturn (EfiStatus.err 7), false, 0, false,
        [], none, wEnvLocFail.store0, wEnvLocFail.mem⟩ ∧
    efi_main wEnvNoLinux = ⟨BootOutcome.errorReturn EfiStatus.notFound, false, 0, false,
        [], none, wEnvNoLinux.store0, wEnvNoLinux.mem⟩ :=
  ⟨(missing_kernel_halts wEnvLocFail rfl).1 (EfiStatus.err 7) rfl,
    (missing_kernel_halts wEnvNoLinux rfl).2 wAddrs wSzsNoLinux rfl rfl⟩

/-- Witness for C9: valid primary address never triggers the assertion,
and with primary address 0 the copy phase ignores the primary size. -/
theorem combine_initrd_cursor_assert_witness :
    (combine_initrd wMem 1000 10 (some ⟨2000, 7⟩) none none wAllocOk).res ≠
        CombineResult.assertFail ∧
    copyPhase wMem 100 0 10 (some ⟨2000, 7⟩) none none =
      copyPhase wMem 100 0 0 (some ⟨2000, 7⟩) none none :=
  ⟨(combine_initrd_cursor_assert wMem 1000 10 (some ⟨2000, 7⟩) none none wAllocOk
      (by decide)).1 (Or.inl (by decide)),
    (combine_initrd_cursor_assert wMem 0 10 (some ⟨2000, 7⟩) none none wAllocOk
      (by decide)).2 rfl 100⟩

/-- Witness for C10: a successful combine leaves an address below the
output region and the credential source buffer unchanged. -/
theorem combine_initrd_frame_witness :
    (copyPhase wMem 100 1000 10 (some ⟨2000, 7⟩) none none).1 50 = wMem 50 ∧
    readBytes (copyPhase wMem 100 1000 10 (some ⟨2000, 7⟩) none none).1 2000 7 =
      readBytes wMem 2000 7 :=
  ⟨(combine_initrd_frame wMem 1000 10 (some ⟨2000, 7⟩) none none wAllocOk
      (copyPhase wMem 100 1000 10 (some ⟨2000, 7⟩) none none).1 100 19 rfl).1 50
      (Or.inl (by decide)),
    (combine_initrd_frame wMem 1000 10 (some ⟨2000, 7⟩) none none wAllocOk
      (copyPhase wMem 100 1000 10 (some ⟨2000, 7⟩) none none).1 100 19 rfl).2.2.1
      ⟨2000, 7⟩ rfl (by decide)⟩

end Stub
